import Mathlib

/-!
Shallow embedding of the hexavalent code generators.

The repository contains three small JavaScript generators:
* `src/print/generate.js` — parses field-description arrays from `text.c`,
  reads the event spec file in fixed-stride groups, and emits
  `print_event!` registration lines (namespace `Generate`);
* a preference generator — parses indented rows of a C preference table
  and emits `pref!` registration lines (namespace `Prefs`);
* a signature rewriter — finds `unsafe fn` blocks in a Rust source file,
  extracts the parameter names by indentation sniffing, removes a literal
  plugin-handle parameter line, and appends a forwarding call body
  (namespace `Rewriter`).

Every definition below is translated directly from the JavaScript source.
JavaScript regular expressions are embedded as explicit scanning functions
over `List Char` whose behaviour coincides with the original pattern on
all inputs (leftmost match, greedy/lazy quantifier behaviour traced per
pattern).  A JavaScript runtime `TypeError` (destructuring a `null` match
result, calling a method on `undefined`) is modelled by `Except.error`;
a possibly-`undefined` value is modelled by `Option`.
-/

namespace Hexavalent

/-- Character class of the JavaScript whitespace escape as it applies to the
ASCII inputs of this repository. -/
def isSpaceJS (c : Char) : Bool :=
  c = ' ' || c = '\t' || c = '\n' || c = '\r' || c = '\x0b' || c = '\x0c'

/-- Character class of the JavaScript word escape: ASCII letters, digits and
the underscore. -/
def isWordChar (c : Char) : Bool :=
  c.isAlphanum || c = '_'

/-- Substring test, mirroring the JavaScript String.includes method. -/
def hasInfix (needle : List Char) : List Char → Bool
  | [] => needle.isEmpty
  | c :: rest => needle.isPrefixOf (c :: rest) || hasInfix needle rest

/-- Split of a character list at every character satisfying the predicate,
with the JavaScript single-character-pattern split semantics: adjacent
separators and separators at either end produce empty tokens, and the
empty input produces one empty token. -/
def splitChars (p : Char → Bool) : List Char → List (List Char)
  | [] => [[]]
  | c :: rest =>
    let r := splitChars p rest
    if p c then [] :: r
    else
      match r with
      | t :: ts => (c :: t) :: ts
      | [] => [[c]]

/-- String split on a character predicate with JavaScript semantics. -/
def splitJS (s : String) (p : Char → Bool) : List String :=
  (splitChars p s.toList).map String.mk

/-- Join of a string list with a separator, mirroring the JavaScript
Array.join method. -/
def joinSep (sep : String) : List String → String
  | [] => ""
  | [x] => x
  | x :: y :: rest => x ++ sep ++ joinSep sep (y :: rest)

/-- Test whether a line starts with a closing brace, mirroring the
single-character startsWith call of the source. -/
def startsWithCloseBrace (l : String) : Bool :=
  match l.toList with
  | [] => false
  | c :: _ => c = '\x7d'

/-- Capitalisation step of both nameToCamelCase functions: the first
character upper-cased, the remainder lower-cased.  On an empty token the
JavaScript code reads index 0 of the string, getting undefined, and then
calls toUpperCase on it, which throws; this is the `none` case. -/
def capitalizeJS (w : String) : Option String :=
  match w.toList with
  | [] => none
  | c :: rest => some (String.mk (c.toUpper :: rest.map Char.toLower))

/-- Total description of the capitalisation step used in statements about
well-formed tokens: first character upper-cased, remainder lower-cased. -/
def titleWord (w : String) : String :=
  match w.toList with
  | [] => ""
  | c :: rest => String.mk (c.toUpper :: rest.map Char.toLower)

/-- Sequencing of capitalizeJS over the token list of a name; `none` as soon
as one token is empty, exactly as the JavaScript map throws at the first
empty token. -/
def mapCapitalize : List String → Option (List String)
  | [] => some []
  | w :: ws => do
      let c ← capitalizeJS w
      let cs ← mapCapitalize ws
      some (c :: cs)

namespace Prefs

/-- One preference record as captured by the row pattern: the quoted name
and the symbolic type token. -/
structure PrefSpec where
  name : String
  type : String
deriving DecidableEq, Repr

/-- Attempt to match the preference row pattern at the current position:
an open brace, a quote, one or more word characters (the name), a quote and
a comma, one or more non-comma characters, a comma, a space, and one or
more word characters (the type token). -/
def prefRowAt (cs : List Char) : Option (String × String) :=
  match cs with
  | c0 :: c1 :: rest =>
    if c0 = '\x7b' && c1 = '"' then
      let nm := rest.takeWhile isWordChar
      if nm.isEmpty then none else
      match rest.drop nm.length with
      | '"' :: ',' :: rest2 =>
        let mid := rest2.takeWhile (fun c => !(c = ','))
        if mid.isEmpty then none else
        match rest2.drop mid.length with
        | ',' :: ' ' :: rest3 =>
          let ty := rest3.takeWhile isWordChar
          if ty.isEmpty then none else some (String.mk nm, String.mk ty)
        | _ => none
      | _ => none
    else none
  | _ => none

/-- Leftmost match of the preference row pattern, as RegExp.exec performs
it: try every start position from the left. -/
def prefRowSearch : List Char → Option (String × String)
  | [] => none
  | c :: rest =>
    match prefRowAt (c :: rest) with
    | some r => some r
    | none => prefRowSearch rest

/-- Test for the sentinel terminator row: the line contains the literal
zero tuple. -/
def isSentinelRow (line : String) : Bool :=
  hasInfix "\x7b0, 0, 0\x7d".toList line.toList

/-- Line loop of readPrefs: empty lines and lines not beginning with
whitespace are skipped, a sentinel row is skipped, and every surviving line
is matched against the row pattern; a failed match is a runtime TypeError
(the match result null is destructured), modelled as an error. -/
def readPrefsLines : List String → Except String (List PrefSpec)
  | [] => .ok []
  | line :: rest =>
    match line.toList with
    | [] => readPrefsLines rest
    | c :: _ =>
      if !isSpaceJS c then readPrefsLines rest
      else if isSentinelRow line then readPrefsLines rest
      else
        match prefRowSearch line.toList with
        | none => .error "TypeError: Cannot destructure null"
        | some (nm, ty) => do
            let rl ← readPrefsLines rest
            .ok (⟨nm, ty⟩ :: rl)

/-- The readPrefs generator: the first two prefix lines of the file are
sliced off, then the line loop runs. -/
def readPrefs (fileLines : List String) : Except String (List PrefSpec) :=
  readPrefsLines (fileLines.drop 2)

/-- Preference-name conversion: split on underscores, capitalise each
segment, concatenate with no separator. -/
def nameToCamelCase (s : String) : Option String :=
  (mapCapitalize (splitJS s (fun c => c = '_'))).map String.join

/-- Symbolic-type mapping of typeToRust: the closed three-way switch, any
other token throws an unsupported-type error. -/
def typeToRust (t : String) : Except String String :=
  if t = "TYPE_STR" then .ok "String"
  else if t = "TYPE_INT" then .ok "i32"
  else if t = "TYPE_BOOL" then .ok "bool"
  else .error ("Unsupported type: " ++ t)

/-- Emission of one preference line; the identifier conversion runs first
(it throws on a malformed name), then the type mapping. -/
def emitPref (p : PrefSpec) : Except String String := do
  let ident ← (match nameToCamelCase p.name with
               | some v => Except.ok v
               | none => Except.error "TypeError: undefined toUpperCase")
  let ty ← typeToRust p.type
  Except.ok ("pref!(" ++ ident ++ ", \"" ++ p.name ++ "\", " ++ ty ++ ");")

/-- Emission loop over the yielded preference records, in file order. -/
def emitPrefs : List PrefSpec → Except String (List String)
  | [] => .ok []
  | p :: ps => do
      let l ← emitPref p
      let ls ← emitPrefs ps
      .ok (l :: ls)

/-- The full preference pipeline generateRustLines: extract rows, then emit
one templated line per row. -/
def generateRustLines (fileLines : List String) : Except String (List String) := do
  let prefs ← readPrefs fileLines
  emitPrefs prefs

end Prefs

namespace Generate

/-- One event record of readTextEvents.  Every field is the line at a fixed
offset from the group start; a missing line (index past the end of the
file) is the JavaScript undefined, modelled as `none`. -/
structure EventSpec where
  name : Option String
  signal : Option String
  fields_key : Option String
  format : Option String
  field_count_maybe : Option String
deriving DecidableEq, Repr

/-- The readTextEvents loop, fuelled by the number of remaining lines:
while the index is below the line count, yield a record whose five fields
are the lines at offsets 0 through 4 from the current index, then step the
index by 6.  Each step drops at least one line, so the fuel never runs out
on the actual recursion. -/
def readTextEventsAux : Nat → List String → List EventSpec
  | _, [] => []
  | 0, _ :: _ => []
  | fuel + 1, a :: as =>
      ⟨some a, as[0]?, as[1]?, as[2]?, as[3]?⟩ :: readTextEventsAux fuel (as.drop 5)

/-- The readTextEvents generator on the split line list. -/
def readTextEvents (lines : List String) : List EventSpec :=
  readTextEventsAux lines.length lines

/-- One field-description array parsed from the descriptor source: the
array identifier and the ordered list of field labels. -/
structure FieldDescriptor where
  key : String
  fields : List String
deriving DecidableEq, Repr

/-- Attempt to match the declaration pattern at the current position: the
literal word const, one or more whitespace characters, one or more word
characters (the captured key), and a literal pair of square brackets. -/
def keyAt (cs : List Char) : Option String :=
  if ("const".toList).isPrefixOf cs then
    let after := cs.drop 5
    let ws := after.takeWhile isSpaceJS
    if ws.isEmpty then none else
    let after2 := after.drop ws.length
    let w := after2.takeWhile isWordChar
    if w.isEmpty then none else
    match after2.drop w.length with
    | '[' :: ']' :: _ => some (String.mk w)
    | _ => none
  else none

/-- Leftmost match of the declaration pattern on a line. -/
def keySearch : List Char → Option String
  | [] => none
  | c :: rest =>
    match keyAt (c :: rest) with
    | some k => some k
    | none => keySearch rest

/-- Greedy capture of the wrapped-literal pattern: the capture extends to
the last quote-and-parenthesis closer on the line, and must be nonempty.
The scan runs over the reversed remainder of the line. -/
def lastCloser (cs : List Char) : Option (List Char) :=
  (go cs.reverse).map List.reverse
where
  go : List Char → Option (List Char)
    | ')' :: '"' :: c :: rest => some (c :: rest)
    | _ :: rest => go rest
    | [] => none

/-- Attempt the wrapped-literal pattern from each position of a line: the
literal marker, an open parenthesis and a quote, then the greedy capture up
to the last closing quote-and-parenthesis. -/
def findNPayload : List Char → Option (List Char)
  | [] => none
  | c :: rest =>
    if ("N_(\"".toList).isPrefixOf (c :: rest) then
      match lastCloser ((c :: rest).drop 4) with
      | some cap => some cap
      | none => findNPayload rest
    else findNPayload rest

/-- Bare quoted-string fallback pattern: a whitespace character, a quote,
a nonempty greedy capture, a closing quote and only whitespace to the end
of the line.  The closing quote is the last non-whitespace character of
the line; the opening quote is the leftmost whitespace-then-quote pair
leaving a nonempty capture. -/
def bareQuoted (line : List Char) : Option (List Char) :=
  match line.reverse.dropWhile isSpaceJS with
  | '"' :: restRev => findOpen restRev.reverse
  | _ => none
where
  findOpen : List Char → Option (List Char)
    | [] => none
    | c :: rest =>
      if isSpaceJS c then
        match rest with
        | '"' :: payload => if payload.isEmpty then findOpen rest else some payload
        | _ => findOpen rest
      else findOpen rest

/-- Per-line field extraction: the wrapped pattern is tried first, then the
bare quoted pattern as fallback. -/
def extractField (line : String) : Option String :=
  match findNPayload line.toList with
  | some cap => some (String.mk cap)
  | none => (bareQuoted line.toList).map String.mk

/-- Field extraction with the JavaScript failure behaviour: when both
patterns miss, the null match result is destructured and throws. -/
def extractFieldE (line : String) : Except String String :=
  match extractField line with
  | some f => .ok f
  | none => .error ("TypeError: no field pattern match: " ++ line)

/-- Interior loop of a descriptor block: each interior line yields one
field label, in source order; the first failing line aborts. -/
def parseFields : List String → Except String (List String)
  | [] => .ok []
  | l :: rest =>
    match extractFieldE l with
    | .error e => .error e
    | .ok f =>
      match parseFields rest with
      | .error e => .error e
      | .ok fs => .ok (f :: fs)

/-- Block loop of readDescriptions, fuelled by the number of remaining
lines (each block consumes at least its declaration line, so the fuel
never runs out on the actual recursion). -/
def readBlocksAux : Nat → List String → Except String (List FieldDescriptor)
  | _, [] => .ok []
  | 0, _ :: _ => .error "fuel exhausted"
  | fuel + 1, line :: rest =>
    match keySearch line.toList with
    | none => .error ("TypeError: no declaration match: " ++ line)
    | some key =>
      let interior := rest.takeWhile (fun l => !(startsWithCloseBrace l))
      match parseFields interior with
      | .error e => .error e
      | .ok fs =>
        match rest.drop interior.length with
        | [] => .error "TypeError: undefined startsWith"
        | _ :: after =>
          match readBlocksAux fuel (after.dropWhile (fun l => l = "")) with
          | .error e => .error e
          | .ok ds => .ok (⟨key, fs⟩ :: ds)

/-- Block loop of readDescriptions on an already-sliced line list. -/
def readBlocks (ls : List String) : Except String (List FieldDescriptor) :=
  readBlocksAux ls.length ls

/-- The readDescriptions generator: the fixed 18 leading comment lines are
sliced off, then the block loop runs. -/
def readDescriptions (fileLines : List String) : Except String (List FieldDescriptor) :=
  readBlocks (fileLines.drop 18)

/-- Descriptor mapping construction: the empty sentinel entry is assigned
first, then every parsed descriptor is assigned in order, a later
assignment overriding an earlier one of the same key. -/
def buildMapping (ds : List FieldDescriptor) : List (String × List String) :=
  ("pevt_generic_none_help", []) :: ds.map (fun d => (d.key, d.fields))

/-- Lookup in the assignment list: the last assignment of a key wins,
mirroring property assignment on the JavaScript object. -/
def lookupLast (m : List (String × List String)) (k : String) : Option (List String) :=
  match m with
  | [] => none
  | (k0, v) :: rest =>
    match lookupLast rest k with
    | some v0 => some v0
    | none => if k0 = k then some v else none

/-- Indexed pair formatting of the emitted field list: each field label is
paired with its position, starting from the given index. -/
def fieldPairsFrom (i : Nat) : List String → List String
  | [] => []
  | f :: fs => (toString i ++ ": \"" ++ f ++ "\"") :: fieldPairsFrom (i + 1) fs

/-- Indexed pair formatting starting at zero, as the map callback receives
the zero-based element index. -/
def fieldPairs (fields : List String) : List String :=
  fieldPairsFrom 0 fields

/-- Event-name conversion: split on every single non-word character,
capitalise each token, concatenate with no separator.  An empty token
makes the capitalisation step throw, hence `none`. -/
def nameToCamelCase (s : String) : Option String :=
  (mapCapitalize (splitJS s (fun c => !(isWordChar c)))).map String.join

/-- Emission of one event line.  The template evaluates the identifier
conversion first (throwing on a missing or malformed name), then resolves
the descriptor key against the mapping (an absent key gives undefined and
the map call on it throws), and finally formats the line; an undefined
format string is interpolated as the text undefined. -/
def emitEvent (m : List (String × List String)) (e : EventSpec) : Except String String :=
  match e.name with
  | none => .error "TypeError: undefined split"
  | some nm =>
    match nameToCamelCase nm with
    | none => .error "TypeError: undefined toUpperCase"
    | some ident =>
      match lookupLast m (match e.fields_key with | some k => k | none => "undefined") with
      | none => .error ("TypeError: undefined map: " ++
          (match e.fields_key with | some k => k | none => "undefined"))
      | some fields =>
        .ok ("print_event!(" ++ ident ++ ", \"" ++ nm ++ "\", \"" ++
          (match e.format with | some f => f | none => "undefined") ++ "\", " ++
          joinSep ", " (fieldPairs fields) ++ ");")

/-- Emission loop over the event records, in file order. -/
def emitAll (m : List (String × List String)) : List EventSpec → Except String (List String)
  | [] => .ok []
  | e :: es => do
      let l ← emitEvent m e
      let ls ← emitAll m es
      .ok (l :: ls)

/-- The full event pipeline generateRustLines: build the mapping from the
descriptor file, then emit one line per event record. -/
def generateRustLines (descLines evtLines : List String) : Except String (List String) := do
  let ds ← readDescriptions descLines
  emitAll (buildMapping ds) (readTextEvents evtLines)

end Generate

namespace Rewriter

/-- Attempt of the indentation-detection pattern right after a newline:
a lazy run of whitespace, then a lazy run of word characters, then a
colon.  Because whitespace characters are not word characters and word
characters are not a colon, the lazy runs coincide with the maximal runs;
the captured indentation is the whitespace run. -/
def depthAt (cs : List Char) : Option (List Char) :=
  let ws := cs.takeWhile isSpaceJS
  if ws.isEmpty then none else
  let after := cs.drop ws.length
  let w := after.takeWhile isWordChar
  if w.isEmpty then none else
  match after.drop w.length with
  | ':' :: _ => some ws
  | _ => none

/-- Leftmost match of the indentation-detection pattern: at each newline in
the block, try the remainder; the capture includes the newline itself. -/
def findDepth : List Char → Option (List Char)
  | [] => none
  | c :: rest =>
    if c = '\n' then
      match depthAt rest with
      | some ws => some ('\n' :: ws)
      | none => findDepth rest
    else findDepth rest

/-- Attempt of the argument pattern at the current position: the literal
detected indentation, then a greedy run of word characters, then a colon.
Returns the captured name and the remainder after the colon. -/
def argAt (depth : List Char) (cs : List Char) : Option (List Char × List Char) :=
  if depth.isPrefixOf cs then
    let after := cs.drop depth.length
    let w := after.takeWhile isWordChar
    if w.isEmpty then none else
    match after.drop w.length with
    | ':' :: rest => some (w, rest)
    | _ => none
  else none

/-- Global scan of the argument pattern, left to right and non-overlapping,
as repeated exec calls on a global regular expression perform it.  The fuel
is the remaining length; every step consumes at least one character, so the
fuel never runs out on the actual recursion. -/
def allArgsAux (depth : List Char) : Nat → List Char → List (List Char)
  | _, [] => []
  | 0, _ :: _ => []
  | fuel + 1, c :: rest =>
    match argAt depth (c :: rest) with
    | some (w, after) => w :: allArgsAux depth fuel after
    | none => allArgsAux depth fuel rest

/-- All captures of the argument pattern over a block. -/
def allArgs (depth cs : List Char) : List (List Char) :=
  allArgsAux depth cs.length cs

/-- Literal text of the handle-parameter removal pattern. -/
def phLit : List Char := "ph: *mut hexchat_plugin,".toList

/-- Global removal of the handle-parameter literal with an optional
trailing newline, left to right and non-overlapping. -/
def removePhAux : Nat → List Char → List Char
  | _, [] => []
  | 0, cs => cs
  | fuel + 1, c :: rest =>
    if phLit.isPrefixOf (c :: rest) then
      let after := (c :: rest).drop phLit.length
      let after2 := match after with
                    | '\n' :: r => r
                    | _ => after
      removePhAux fuel after2
    else c :: removePhAux fuel rest

/-- Removal of every handle-parameter literal from a block. -/
def removePh (cs : List Char) : List Char :=
  removePhAux cs.length cs

/-- Forwarding argument list of a block: every capture of the argument
pattern under the detected indentation, with the first capture (the handle
parameter) dropped. -/
def forwardArgs (fullMatch : String) : List String :=
  (((allArgs ((findDepth fullMatch.toList).getD []) fullMatch.toList)).map String.mk).drop 1

/-- Actual argument list of the generated forwarding call: the raw handle
pointer first, then the forwarding arguments in original order. -/
def actualCallArgs (fullMatch : String) : List String :=
  "self.handle.as_ptr()" :: forwardArgs fullMatch

/-- Generated forwarding body appended after the opening brace, exactly as
the template literal in the source spells it. -/
def forwardBody (name : String) (args : List String) : String :=
  "// Safety: forwarded to caller\n\t\t\tunsafe \x7b ((*self.handle.as_ptr())." ++ name ++
    ")(self.handle.as_ptr(), " ++ joinSep "," args ++ ") \x7d\n\t\t"

/-- Replacement callback for one matched block: detect the indentation,
collect the argument names and drop the handle, remove the literal
handle-parameter line, and append the forwarding body. -/
def rewriteBlock (fullMatch name : String) : String :=
  String.mk (removePh fullMatch.toList) ++ forwardBody name (forwardArgs fullMatch)

/-- Index of the first opening brace in a character list. -/
def braceIdx : List Char → Option Nat
  | [] => none
  | c :: rest => if c = '\x7b' then some 0 else (braceIdx rest).map (· + 1)

/-- Attempt of the block pattern at the current position: the literal
prefix, the captured function name, an opening parenthesis, then a lazy
nonempty run of arbitrary characters up to the first opening brace.
Returns the captured name, the full matched text and the remainder. -/
def blockAt (cs : List Char) : Option (String × String × List Char) :=
  if ("unsafe fn ".toList).isPrefixOf cs then
    let after := cs.drop 10
    let nm := after.takeWhile isWordChar
    if nm.isEmpty then none
    else match after.drop nm.length with
      | '(' :: rest2 =>
        match rest2 with
        | [] => none
        | _ :: r =>
          match braceIdx r with
          | none => none
          | some j =>
            let k := j + 1
            let full := "unsafe fn ".toList ++ nm ++ ['('] ++ rest2.take k ++ ['\x7b']
            some (String.mk nm, String.mk full, rest2.drop (k + 1))
      | _ => none
  else none

/-- Global replacement scan over the input file: at each position a block
match is replaced by the rewritten block, any other character is copied. -/
def rewriteAux : Nat → List Char → List Char
  | _, [] => []
  | 0, cs => cs
  | fuel + 1, c :: rest =>
    match blockAt (c :: rest) with
    | some (nm, full, after) => (rewriteBlock full nm).toList ++ rewriteAux fuel after
    | none => c :: rewriteAux fuel rest

/-- The whole signature-rewrite transform on the input file text. -/
def rewriteAll (input : String) : String :=
  String.mk (rewriteAux input.toList.length input.toList)

/-- Concrete rewrite-source block from the testable-properties section of
the specification: a two-parameter declaration whose handle parameter is
named handle. -/
def getInfoBlock : String :=
  "unsafe fn get_info(handle: *mut hexchat_plugin, id: *const c_char) \x7b"

/-- Concrete handle-only rewrite-source block, with the handle parameter
under its conventional source name. -/
def deinitBlock : String :=
  "unsafe fn deinit(ph: *mut hexchat_plugin) \x7b"

end Rewriter

/-! Theorems settling the claims. -/

deriving instance DecidableEq for Except

/-- C5: the symbolic-type mapping takes TYPE_STR to String, TYPE_INT to
i32 and TYPE_BOOL to bool, and any symbolic type token outside this closed
three-element set raises a fatal unsupported-type error rather than
skipping the row. -/
theorem c5_thm :
    Prefs.typeToRust "TYPE_STR" = .ok "String" ∧
    Prefs.typeToRust "TYPE_INT" = .ok "i32" ∧
    Prefs.typeToRust "TYPE_BOOL" = .ok "bool" ∧
    ∀ t : String, t ∉ (["TYPE_STR", "TYPE_INT", "TYPE_BOOL"] : List String) →
      Prefs.typeToRust t = .error ("Unsupported type: " ++ t) := by
  refine ⟨rfl, rfl, rfl, ?_⟩
  intro t ht
  simp only [List.mem_cons, List.not_mem_nil, or_false] at ht
  push_neg at ht
  obtain ⟨h1, h2, h3⟩ := ht
  simp [Prefs.typeToRust, h1, h2, h3]

/-- Witness for C5 at the concrete fourth token TYPE_FLOAT. -/
theorem c5_witness :
    ("TYPE_FLOAT" : String) ∉ (["TYPE_STR", "TYPE_INT", "TYPE_BOOL"] : List String) ∧
    Prefs.typeToRust "TYPE_FLOAT" = .error ("Unsupported type: " ++ "TYPE_FLOAT") :=
  ⟨by decide, c5_thm.2.2.2 "TYPE_FLOAT" (by decide)⟩

/-- C8: the indented preference-file line holding the quoted name
auto_reconnect and the token TYPE_BOOL yields the preference record with
that name and type, and the pipeline emits for it an output line carrying
the identifier AutoReconnect and the primitive type bool. -/
theorem c8_thm :
    Prefs.readPrefs ["// prefix one", "// prefix two",
        "\t\x7b\"auto_reconnect\", 0, TYPE_BOOL, 0\x7d"] =
      .ok [⟨"auto_reconnect", "TYPE_BOOL"⟩] ∧
    Prefs.generateRustLines ["// prefix one", "// prefix two",
        "\t\x7b\"auto_reconnect\", 0, TYPE_BOOL, 0\x7d"] =
      .ok ["pref!(AutoReconnect, \"auto_reconnect\", bool);"] ∧
    hasInfix "AutoReconnect".toList
      "pref!(AutoReconnect, \"auto_reconnect\", bool);".toList = true ∧
    hasInfix "bool".toList
      "pref!(AutoReconnect, \"auto_reconnect\", bool);".toList = true :=
  ⟨by decide, by decide, by decide, by decide⟩

/-- C3 counterexample: an indented, non-empty, non-sentinel line that
fails the row capture pattern makes the extractor raise a runtime error
(the null match result is destructured) and abort the run, refuting the
claim that such a line is silently skipped with no error. -/
theorem c3_counterexample :
    ("\tgot_mapping = TRUE;" ≠ "") ∧
    isSpaceJS '\t' = true ∧
    Prefs.isSentinelRow "\tgot_mapping = TRUE;" = false ∧
    Prefs.prefRowSearch "\tgot_mapping = TRUE;".toList = none ∧
    (Prefs.readPrefsLines ["\tgot_mapping = TRUE;"]).isOk = false ∧
    (Prefs.generateRustLines ["p1", "p2", "\tgot_mapping = TRUE;"]).isOk = false :=
  ⟨by decide, by decide, by decide, by decide, by decide, by decide⟩

/-- C3 amended: every preference-file line that is non-empty, begins with
whitespace, is not a sentinel terminator row and does not match the
preference-row capture pattern makes the extractor throw a fatal TypeError
(the null result of the exec call is destructured); it is not silently
skipped. -/
theorem c3_thm (line : String) (c : Char) (cs : List Char) (rest : List String)
    (hl : line.toList = c :: cs) (hs : isSpaceJS c = true)
    (hsent : Prefs.isSentinelRow line = false)
    (hmatch : Prefs.prefRowSearch line.toList = none) :
    Prefs.readPrefsLines (line :: rest) = .error "TypeError: Cannot destructure null" := by
  have hm : Prefs.prefRowSearch (c :: cs) = none := by rw [← hl]; exact hmatch
  have hd : line.data = c :: cs := hl
  simp [Prefs.readPrefsLines, hd, hs, hsent, hm]

/-- Witness for C3 at a concrete indented structural line. -/
theorem c3_witness :
    ("\tgot_flag = 1;".toList = '\t' :: "got_flag = 1;".toList ∧
     isSpaceJS '\t' = true ∧
     Prefs.isSentinelRow "\tgot_flag = 1;" = false ∧
     Prefs.prefRowSearch "\tgot_flag = 1;".toList = none) ∧
    Prefs.readPrefsLines ["\tgot_flag = 1;"] = .error "TypeError: Cannot destructure null" :=
  ⟨⟨by decide, by decide, by decide, by decide⟩,
   c3_thm "\tgot_flag = 1;" '\t' "got_flag = 1;".toList []
     (by decide) (by decide) (by decide) (by decide)⟩

set_option maxRecDepth 8192 in
/-- Capitalisation of a nonempty token agrees with the total description:
first character upper-cased, remainder lower-cased. -/
theorem capitalizeJS_of_ne (w : String) (h : w ≠ "") :
    capitalizeJS w = some (titleWord w) := by
  match w with
  | ⟨[]⟩ => exact absurd rfl h
  | ⟨c :: rest⟩ => rfl

/-- Capitalisation sequencing succeeds on a list of nonempty tokens and
returns the title-cased tokens in order. -/
theorem mapCapitalize_all (ws : List String) (h : ∀ w ∈ ws, w ≠ "") :
    mapCapitalize ws = some (ws.map titleWord) := by
  induction ws with
  | nil => rfl
  | cons w ws ih =>
      have hw : w ≠ "" := h w (List.mem_cons_self w ws)
      have hrest : ∀ x ∈ ws, x ≠ "" := fun x hx => h x (List.mem_cons_of_mem w hx)
      simp [mapCapitalize, capitalizeJS_of_ne w hw, ih hrest]

/-- Capitalisation sequencing fails as soon as one token is empty. -/
theorem mapCapitalize_none (ws : List String) (h : "" ∈ ws) :
    mapCapitalize ws = none := by
  induction ws with
  | nil => simp at h
  | cons w ws ih =>
      rcases List.mem_cons.mp h with h1 | h2
      · rw [← h1]
        simp [mapCapitalize, capitalizeJS]
      · cases hc : capitalizeJS w <;> simp [mapCapitalize, hc, ih h2]

/-- C2 counterexample: on the specified block, whose handle parameter is
named handle rather than ph, the rewriter output still contains the intact
handle-parameter declaration, refuting the part of the claim that says the
declaration is emitted with the handle parameter line removed. -/
theorem c2_counterexample :
    hasInfix "handle: *mut hexchat_plugin,".toList
      (Rewriter.rewriteAll Rewriter.getInfoBlock).toList = true := by
  decide

set_option maxRecDepth 8192 in
/-- C2 amended: on the specified block the rewriter emits the declaration
unchanged — the removal pattern matches only a parameter literally written
ph with the native-plugin-handle type, and this block names it handle — and
appends a forwarding call that invokes the get_info field through the
stored handle, passing the raw handle pointer first and then id. -/
theorem c2_thm :
    Rewriter.rewriteAll Rewriter.getInfoBlock =
      Rewriter.getInfoBlock ++
        ("// Safety: forwarded to caller\n\t\t\tunsafe \x7b ((*self.handle.as_ptr())." ++
          "get_info" ++ ")(self.handle.as_ptr(), " ++ "id" ++ ") \x7d\n\t\t") := by
  rfl

/-- C9: for every rewrite block whose captured parameter list has at most
the handle parameter (including the degenerate case in which the
indentation-detection pattern never matches), the generated forwarding
call passes exactly one actual argument, the handle pointer, and the
appended body carries an empty forwarding argument list. -/
theorem c9_thm (fullMatch name : String)
    (h : (Rewriter.allArgs ((Rewriter.findDepth fullMatch.toList).getD [])
            fullMatch.toList).length ≤ 1) :
    (Rewriter.actualCallArgs fullMatch).length = 1 ∧
    Rewriter.rewriteBlock fullMatch name =
      String.mk (Rewriter.removePh fullMatch.toList) ++ Rewriter.forwardBody name [] := by
  have hfa : Rewriter.forwardArgs fullMatch = [] := by
    unfold Rewriter.forwardArgs
    apply List.drop_eq_nil_of_le
    simpa using h
  exact ⟨by simp [Rewriter.actualCallArgs, hfa], by simp [Rewriter.rewriteBlock, hfa]⟩

/-- Index description of the fuelled readTextEvents loop: with enough fuel,
the record at position k carries the five lines at offsets 0 through 4 from
line index 6 times k. -/
theorem readTextEventsAux_getElem (fuel : Nat) :
    ∀ (lines : List String), lines.length ≤ fuel → ∀ k : Nat, 6 * k < lines.length →
      (Generate.readTextEventsAux fuel lines)[k]? =
        some ⟨lines[6 * k]?, lines[6 * k + 1]?, lines[6 * k + 2]?,
              lines[6 * k + 3]?, lines[6 * k + 4]?⟩ := by
  induction fuel with
  | zero =>
      intro lines hf k h
      have : lines = [] := List.eq_nil_of_length_eq_zero (Nat.le_zero.mp hf)
      subst this
      simp at h
  | succ fuel ih =>
      intro lines hf k h
      match lines with
      | [] => simp at h
      | a :: as =>
        match k with
        | 0 =>
            simp [Generate.readTextEventsAux]
        | k + 1 =>
            have hf2 : (as.drop 5).length ≤ fuel := by
              simp only [List.length_drop]
              simp only [List.length_cons] at hf
              omega
            have h2 : 6 * k < (as.drop 5).length := by
              simp only [List.length_drop]
              simp only [List.length_cons] at h
              omega
            have step :
                (Generate.readTextEventsAux (fuel + 1) (a :: as))[k + 1]? =
                  (Generate.readTextEventsAux fuel (as.drop 5))[k]? := by
              simp [Generate.readTextEventsAux]
            rw [step, ih (as.drop 5) hf2 k h2]
            simp only [List.getElem?_drop]
            have hc : ∀ n m : Nat, m = n + 1 → (a :: as)[m]? = as[n]? := by
              intro n m hm
              subst hm
              exact List.getElem?_cons_succ
            rw [hc (5 + 6 * k) (6 * (k + 1)) (by omega),
                hc (5 + (6 * k + 1)) (6 * (k + 1) + 1) (by omega),
                hc (5 + (6 * k + 2)) (6 * (k + 1) + 2) (by omega),
                hc (5 + (6 * k + 3)) (6 * (k + 1) + 3) (by omega),
                hc (5 + (6 * k + 4)) (6 * (k + 1) + 4) (by omega)]

/-- C1 counterexample: on a ten-line input with no blank separators, the
grouping claimed by the specification (groups of exactly 5 logical lines)
would make the second record start at line index 5, but the reader steps
the index by 6, so the second record does not carry the fields of lines 5
through 9. -/
theorem c1_counterexample :
    (Generate.readTextEvents
        ["A", "sa", "ka", "fa", "ha", "B", "sb", "kb", "fb", "hb"])[1]? ≠
      some ⟨some "B", some "sb", some "kb", some "fb", some "hb"⟩ := by
  decide

/-- C1 amended: EventSpecReader produces one EventSpec per consecutive
group of 6 logical lines: for group k, lines 6k through 6k+4 supply name,
signal, fieldsKey, format and fieldCountHint respectively, and line 6k+5
(the blank separator between groups) is skipped without inspection. -/
theorem c1_thm (lines : List String) (k : Nat) (h : 6 * k < lines.length) :
    (Generate.readTextEvents lines)[k]? =
      some ⟨lines[6 * k]?, lines[6 * k + 1]?, lines[6 * k + 2]?,
            lines[6 * k + 3]?, lines[6 * k + 4]?⟩ :=
  readTextEventsAux_getElem lines.length lines (Nat.le_refl _) k h

/-- Witness for C1 on a concrete twelve-line input: the second record is
built from lines 6 through 10. -/
theorem c1_witness :
    6 * 1 < (["A", "sa", "ka", "fa", "ha", "", "B", "sb", "kb", "fb", "hb", ""] :
        List String).length ∧
    (Generate.readTextEvents
        ["A", "sa", "ka", "fa", "ha", "", "B", "sb", "kb", "fb", "hb", ""])[1]? =
      some ⟨some "B", some "sb", some "kb", some "fb", some "hb"⟩ :=
  ⟨by decide,
   (c1_thm ["A", "sa", "ka", "fa", "ha", "", "B", "sb", "kb", "fb", "hb", ""] 1
      (by decide)).trans (by decide)⟩

/-- Witness for C9 at a concrete handle-only block. -/
theorem c9_witness :
    (Rewriter.allArgs ((Rewriter.findDepth Rewriter.deinitBlock.toList).getD [])
        Rewriter.deinitBlock.toList).length ≤ 1 ∧
    (Rewriter.actualCallArgs Rewriter.deinitBlock).length = 1 ∧
    Rewriter.rewriteBlock Rewriter.deinitBlock "deinit" =
      String.mk (Rewriter.removePh Rewriter.deinitBlock.toList) ++
        Rewriter.forwardBody "deinit" [] :=
  ⟨by rfl, c9_thm Rewriter.deinitBlock "deinit" (by rfl)⟩

/-- C6: for every event name whose tokens — obtained by splitting on single
non-word characters — are all nonempty, the emitted identifier equals the
concatenation, with no separator, of the tokens each with its first
character upper-cased and the remainder lower-cased. -/
theorem c6_thm (s : String)
    (h : ∀ w ∈ splitJS s (fun c => !(isWordChar c)), w ≠ "") :
    Generate.nameToCamelCase s =
      some (String.join ((splitJS s (fun c => !(isWordChar c))).map titleWord)) := by
  unfold Generate.nameToCamelCase
  rw [mapCapitalize_all _ h]
  rfl

/-- Witness for C6 at the name Channel Message, giving ChannelMessage. -/
theorem c6_witness :
    (∀ w ∈ splitJS "Channel Message" (fun c => !(isWordChar c)), w ≠ "") ∧
    Generate.nameToCamelCase "Channel Message" = some "ChannelMessage" :=
  ⟨by decide, (c6_thm "Channel Message" (by decide)).trans (by decide)⟩

/-- C10: for every event name whose split (on single non-word characters)
produces an empty token, the identifier conversion throws instead of
returning an identifier, so emission fails for that event and no output
line is produced. -/
theorem c10_thm (s : String)
    (h : "" ∈ splitJS s (fun c => !(isWordChar c))) :
    Generate.nameToCamelCase s = none ∧
    ∀ (m : List (String × List String)) (e : Generate.EventSpec),
      e.name = some s → (Generate.emitEvent m e).isOk = false := by
  have hn : Generate.nameToCamelCase s = none := by
    unfold Generate.nameToCamelCase
    rw [mapCapitalize_none _ h]
    rfl
  refine ⟨hn, ?_⟩
  intro m e he
  simp [Generate.emitEvent, he, hn, Except.isOk, Except.toBool]

/-- Witness for C10 at a name holding two adjacent separators. -/
theorem c10_witness :
    ("" ∈ splitJS "Channel  Message" (fun c => !(isWordChar c))) ∧
    Generate.nameToCamelCase "Channel  Message" = none ∧
    (Generate.emitEvent (Generate.buildMapping [])
        ⟨some "Channel  Message", some "sig", some "key", some "fmt", some "0"⟩).isOk
      = false :=
  ⟨by decide, (c10_thm "Channel  Message" (by decide)).1,
   (c10_thm "Channel  Message" (by decide)).2 (Generate.buildMapping [])
     ⟨some "Channel  Message", some "sig", some "key", some "fmt", some "0"⟩ rfl⟩

/-- Lookup misses a mapping in which every assignment carries a different
key. -/
theorem lookupLast_none (m : List (String × List String)) (k : String)
    (h : ∀ p ∈ m, p.1 ≠ k) : Generate.lookupLast m k = none := by
  induction m with
  | nil => rfl
  | cons p rest ih =>
      have h1 : p.1 ≠ k := h p (List.mem_cons_self p rest)
      have h2 : ∀ q ∈ rest, q.1 ≠ k := fun q hq => h q (List.mem_cons_of_mem p hq)
      simp [Generate.lookupLast, ih h2, h1]

/-- The sentinel key resolves to the empty field list whenever no parsed
descriptor redefines it. -/
theorem lookupLast_sentinel (ds : List Generate.FieldDescriptor)
    (h : ∀ d ∈ ds, d.key ≠ "pevt_generic_none_help") :
    Generate.lookupLast (Generate.buildMapping ds) "pevt_generic_none_help" = some [] := by
  have hm : ∀ p ∈ ds.map (fun d => (d.key, d.fields)),
      p.1 ≠ "pevt_generic_none_help" := by
    intro p hp
    obtain ⟨d, hd, rfl⟩ := List.mem_map.mp hp
    exact h d hd
  simp [Generate.buildMapping, Generate.lookupLast, lookupLast_none _ _ hm]

/-- C4: emission of an event whose descriptor key misses the mapping
raises a fatal error and yields no line; the reserved sentinel key, which
the mapping always carries, resolves to the empty field list and yields a
line with zero index and label pairs. -/
theorem c4_thm (ds : List Generate.FieldDescriptor) (e : Generate.EventSpec) :
    (Generate.lookupLast (Generate.buildMapping ds)
        (match e.fields_key with | some k => k | none => "undefined") = none →
      (Generate.emitEvent (Generate.buildMapping ds) e).isOk = false) ∧
    (e.fields_key = some "pevt_generic_none_help" →
     (∀ d ∈ ds, d.key ≠ "pevt_generic_none_help") →
     ∀ nm ident fmt : String, e.name = some nm →
       Generate.nameToCamelCase nm = some ident → e.format = some fmt →
       Generate.emitEvent (Generate.buildMapping ds) e =
         .ok ("print_event!(" ++ ident ++ ", \"" ++ nm ++ "\", \"" ++ fmt ++ "\", " ++ ");")) := by
  constructor
  · intro hmiss
    cases he : e.name with
    | none => simp [Generate.emitEvent, he, Except.isOk, Except.toBool]
    | some nm =>
        cases hc : Generate.nameToCamelCase nm with
        | none => simp [Generate.emitEvent, he, hc, Except.isOk, Except.toBool]
        | some ident =>
            simp [Generate.emitEvent, he, hc, hmiss, Except.isOk, Except.toBool]
  · intro hkey hds nm ident fmt hnm hc hfmt
    have hlook := lookupLast_sentinel ds hds
    simp [Generate.emitEvent, hnm, hc, hkey, hfmt, hlook, Generate.fieldPairs,
      Generate.fieldPairsFrom, joinSep]

/-- Witness for C4: a concrete event with the sentinel key against a
mapping with one ordinary descriptor emits the zero-pair line. -/
theorem c4_witness :
    ((⟨some "No Fields", some "sig", some "pevt_generic_none_help", some "%C", some "0"⟩ :
        Generate.EventSpec).fields_key = some "pevt_generic_none_help" ∧
     (∀ d ∈ [(⟨"pevt_join_help", ["N1", "C2"]⟩ : Generate.FieldDescriptor)],
        d.key ≠ "pevt_generic_none_help") ∧
     Generate.nameToCamelCase "No Fields" = some "NoFields") ∧
    Generate.emitEvent
        (Generate.buildMapping [⟨"pevt_join_help", ["N1", "C2"]⟩])
        ⟨some "No Fields", some "sig", some "pevt_generic_none_help", some "%C", some "0"⟩ =
      .ok "print_event!(NoFields, \"No Fields\", \"%C\", );" :=
  ⟨⟨rfl, by decide, by decide⟩,
   ((c4_thm [⟨"pevt_join_help", ["N1", "C2"]⟩]
      ⟨some "No Fields", some "sig", some "pevt_generic_none_help", some "%C", some "0"⟩).2
      rfl (by decide) "No Fields" "NoFields" "%C" rfl (by decide) rfl).trans (by decide)⟩

/-- Field extraction succeeds exactly when the combined pattern matches. -/
theorem extractFieldE_ok (l f : String) (h : Generate.extractFieldE l = .ok f) :
    Generate.extractField l = some f := by
  unfold Generate.extractFieldE at h
  cases hx : Generate.extractField l <;> simp [hx] at h
  rw [h]

/-- Interior-loop output indices: the parsed field at any position is the
extraction of the source line at the same position. -/
theorem parseFields_getElem (ls : List String) :
    ∀ fs : List String, Generate.parseFields ls = .ok fs →
      ∀ j : Nat, fs[j]? = (ls[j]?).bind Generate.extractField := by
  induction ls with
  | nil =>
      intro fs h j
      cases h
      simp
  | cons l rest ih =>
      intro fs h j
      cases hf : Generate.extractFieldE l with
      | error msg => simp [Generate.parseFields, hf] at h
      | ok f =>
          cases hr : Generate.parseFields rest with
          | error msg => simp [Generate.parseFields, hf, hr] at h
          | ok fs2 =>
              have hfs : fs = f :: fs2 := by
                simp [Generate.parseFields, hf, hr] at h
                exact h.symm
              subst hfs
              match j with
              | 0 => simp [extractFieldE_ok l f hf]
              | j + 1 => simp [ih fs2 hr j]

/-- Pair formatting indices under an arbitrary starting offset. -/
theorem fieldPairsFrom_getElem (fs : List String) :
    ∀ b i : Nat, (Generate.fieldPairsFrom b fs)[i]? =
      (fs[i]?).map (fun f => toString (b + i) ++ ": \"" ++ f ++ "\"") := by
  induction fs with
  | nil =>
      intro b i
      simp [Generate.fieldPairsFrom]
  | cons f fs ih =>
      intro b i
      match i with
      | 0 => simp [Generate.fieldPairsFrom]
      | i + 1 =>
          simp only [Generate.fieldPairsFrom, List.getElem?_cons_succ, ih (b + 1) i]
          rw [show b + 1 + i = b + (i + 1) from by omega]

/-- C7: a descriptor block yields its fields in source declaration order
(the parsed field at position j is the extraction of interior line j), and
the emitted pair list attaches to each field its zero-based position, so
index 0 is the first declared field. -/
theorem c7_thm :
    (∀ (decl closer key : String) (interior fs : List String),
        (∀ l ∈ interior, startsWithCloseBrace l = false) →
        startsWithCloseBrace closer = true →
        Generate.keySearch decl.toList = some key →
        Generate.parseFields interior = .ok fs →
        Generate.readBlocks (decl :: (interior ++ [closer])) = .ok [⟨key, fs⟩]) ∧
    (∀ ls fs : List String, Generate.parseFields ls = .ok fs →
        ∀ j : Nat, fs[j]? = (ls[j]?).bind Generate.extractField) ∧
    (∀ (fs : List String) (i : Nat),
        (Generate.fieldPairs fs)[i]? =
          (fs[i]?).map (fun f => toString i ++ ": \"" ++ f ++ "\"")) := by
  refine ⟨?_, fun ls fs h => parseFields_getElem ls fs h, ?_⟩
  · intro decl closer key interior fs hint hcl hkey hpf
    have htake : (interior ++ [closer]).takeWhile (fun l => !(startsWithCloseBrace l)) =
        interior := by
      rw [List.takeWhile_append_of_pos (by intro a ha; simp [hint a ha])]
      simp [List.takeWhile, hcl]
    have hdrop : (interior ++ [closer]).drop interior.length = [closer] :=
      List.drop_left interior [closer]
    have hlen : (decl :: (interior ++ [closer])).length = (interior.length + 1) + 1 := by
      simp
    have hkey2 : Generate.keySearch decl.data = some key := hkey
    unfold Generate.readBlocks
    rw [hlen]
    simp [Generate.readBlocksAux, hkey2, htake, hpf, hdrop]
  · intro fs i
    have := fieldPairsFrom_getElem fs 0 i
    simpa [Generate.fieldPairs, Nat.zero_add] using this

/-- Witness for C7 on a concrete block with one wrapped and one bare
literal line. -/
theorem c7_witness :
    ((∀ l ∈ ["\tN_(\"The nick of the joining person\"),", "\t\"The channel being joined\""],
        startsWithCloseBrace l = false) ∧
     startsWithCloseBrace "\x7d;" = true ∧
     Generate.keySearch "static char * const pevt_join_help[] = \x7b".toList =
       some "pevt_join_help" ∧
     Generate.parseFields
        ["\tN_(\"The nick of the joining person\"),", "\t\"The channel being joined\""] =
       .ok ["The nick of the joining person", "The channel being joined"]) ∧
    Generate.readBlocks
        ("static char * const pevt_join_help[] = \x7b" ::
          (["\tN_(\"The nick of the joining person\"),", "\t\"The channel being joined\""] ++
            ["\x7d;"])) =
      .ok [⟨"pevt_join_help",
            ["The nick of the joining person", "The channel being joined"]⟩] :=
  ⟨⟨by decide, by decide, by decide, by decide⟩,
   c7_thm.1 "static char * const pevt_join_help[] = \x7b" "\x7d;" "pevt_join_help"
     ["\tN_(\"The nick of the joining person\"),", "\t\"The channel being joined\""]
     ["The nick of the joining person", "The channel being joined"]
     (by decide) (by decide) (by decide) (by decide)⟩

end Hexavalent
